import Mathlib

/-!
Verification of the submodular-function evaluation layer
(`src/function/SubmodularFunction.h` of `exemcl`).

The layer is an abstract class over one required primitive — single-set
evaluation — with default wrappers for marginal gain, batch evaluation and
the two batch marginal-gain shapes, plus a worker-count policy.

Embedding choices:
* an Eigen `MatrixX<HostDataType>` is a stored column count together with
  the list of its rows (each row a list of scalars);
* the subclass-supplied evaluation primitive may fail (throw), so it is an
  `Except`-valued function; the wrappers' runtime errors form `SubmError`,
  which adds the dimension-mismatch `std::runtime_error` of the
  single-element marginal-gain path;
* the `omp parallel for` batch loop writes each index exactly once from its
  own input, so its deterministic result is the indexed map below, with the
  first failing evaluation aborting the whole call;
* `std::thread::hardware_concurrency()` is environment-dependent, so it is
  a parameter `hw` of the worker-count operations;
* resource claims about how often the primitive runs are settled on an
  instrumented copy of the same call structure that threads an explicit
  call log (`tracedEval` / `tracedBatch` / `tracedMarginalGainBatchElems`).
-/

namespace Exemcl

/-- A dense matrix `MatrixX<HostDataType>`: the stored column count and the
list of rows. -/
structure MatrixX (α : Type) where
  cols : Nat
  rows : List (List α)
deriving DecidableEq

/-- `conservativeResize(S.rows() + 1, NoChange)` on a copy of `S` followed by
writing `elem` into the new last row: the rows of `S` with `e` appended as a
new last row, the column count unchanged. -/
def MatrixX.appendRow {α : Type} (S : MatrixX α) (e : List α) : MatrixX α :=
  ⟨S.cols, S.rows ++ [e]⟩

/-- Errors surfaced by the wrappers: the dimension-mismatch
`std::runtime_error` thrown by `operator()(S, elem)` (carrying both observed
sizes, `S.cols()` first and `elem.size()` second), or a subclass evaluation
error `ε` propagated as-is. -/
inductive SubmError (ε : Type) where
  | dimensionMismatch (sCols eSize : Nat)
  | evalError (e : ε)
deriving DecidableEq

/-- The abstract submodular function: the subclass-supplied single-set
evaluation primitive `operator()(S)` (which may fail with a subclass error),
together with the `_workerCount` field. -/
structure SubmodularFunction (α ε : Type) where
  evaluate : MatrixX α → Except ε α
  workerCount : Nat

/-- `getWorkerCount()`. -/
def SubmodularFunction.getWorkerCount {α ε : Type} (F : SubmodularFunction α ε) : Nat :=
  F.workerCount

/-- `setWorkerCount(n)`: store `n` when `n >= 1`; otherwise fall back to the
detected hardware concurrency `hw`, or to 1 when detection reports 0. -/
def SubmodularFunction.setWorkerCount {α ε : Type} (F : SubmodularFunction α ε)
    (hw : Nat) (n : Int) : SubmodularFunction α ε :=
  if 1 ≤ n then { F with workerCount := n.toNat }
  else { F with workerCount := if 0 < hw then hw else 1 }

/-- The base constructor `SubmodularFunction(int workerCount)`: the field
initializer `_workerCount = 1` followed by the body's
`setWorkerCount(workerCount)`. -/
def SubmodularFunction.construct {α ε : Type} (f : MatrixX α → Except ε α)
    (hw : Nat) (workerCount : Int) : SubmodularFunction α ε :=
  SubmodularFunction.setWorkerCount ⟨f, 1⟩ hw workerCount

/-- Construction with the defaulted argument `workerCount = -1`. -/
def SubmodularFunction.constructDefault {α ε : Type} (f : MatrixX α → Except ε α)
    (hw : Nat) : SubmodularFunction α ε :=
  SubmodularFunction.construct f hw (-1)

/-- The single-element marginal gain `operator()(S, elem) const`: check
`S.cols() == elem.size()`; on success evaluate the augmented copy and `S`
and return their difference; on mismatch throw, reporting both sizes. -/
def SubmodularFunction.marginalGain {α ε : Type} [Sub α] (F : SubmodularFunction α ε)
    (S : MatrixX α) (elem : List α) : Except (SubmError ε) α :=
  if S.cols = elem.length then
    match F.evaluate (S.appendRow elem) with
    | .error e => .error (.evalError e)
    | .ok vAug =>
      match F.evaluate S with
      | .error e => .error (.evalError e)
      | .ok vS => .ok (vAug - vS)
  else
    .error (.dimensionMismatch S.cols elem.length)

/-- The batch loop `for i: utilities[i] = operator()(S_multi[i])`: each index
is computed from its own input, in index order, and the first failing
evaluation aborts the whole call. -/
def exceptMap {β γ ε : Type} (f : β → Except ε γ) : List β → Except ε (List γ)
  | [] => .ok []
  | x :: xs =>
    match f x with
    | .error e => .error e
    | .ok y =>
      match exceptMap f xs with
      | .error e => .error e
      | .ok ys => .ok (y :: ys)

/-- Batch evaluation `operator()(S_multi) const`: evaluate every set of the
multi-collection, the result indexed exactly as the input. -/
def SubmodularFunction.evaluateBatch {α ε : Type} (F : SubmodularFunction α ε)
    (S_multi : List (MatrixX α)) : Except (SubmError ε) (List α) :=
  (exceptMap F.evaluate S_multi).mapError SubmError.evalError

/-- Batch marginal gain for many sets and one element,
`operator()(S_multi, elem) const`: append `elem` to a copy of each set,
batch-evaluate the original multi-collection, then the augmented one, and
subtract index-wise (`marginalGains[i] = utilityS_multi_elem[i] -
utilityS_multi[i]`, both batch results having the input's length). -/
def SubmodularFunction.marginalGainBatchMulti {α ε : Type} [Sub α]
    (F : SubmodularFunction α ε) (S_multi : List (MatrixX α)) (elem : List α) :
    Except (SubmError ε) (List α) :=
  let S_multi_elem := S_multi.map (fun S => S.appendRow elem)
  match F.evaluateBatch S_multi with
  | .error err => .error err
  | .ok utilityS_multi =>
    match F.evaluateBatch S_multi_elem with
    | .error err => .error err
    | .ok utilityS_multi_elem =>
      .ok (List.zipWith (fun a b => a - b) utilityS_multi_elem utilityS_multi)

/-- Batch marginal gain for one set and many candidate elements,
`operator()(S, elems) const`: build the augmented copies `S u e_i`, evaluate
`S` through the primitive, evaluate all augmented copies through one batch
call, and set `gains[i] = S_elems_funcValue[i] - S_funcValue`. -/
def SubmodularFunction.marginalGainBatchElems {α ε : Type} [Sub α]
    (F : SubmodularFunction α ε) (S : MatrixX α) (elems : List (List α)) :
    Except (SubmError ε) (List α) :=
  let S_elems := elems.map (fun e => S.appendRow e)
  match F.evaluate S with
  | .error e => .error (.evalError e)
  | .ok S_funcValue =>
    match F.evaluateBatch S_elems with
    | .error err => .error err
    | .ok S_elems_funcValue =>
      .ok (S_elems_funcValue.map (fun v => v - S_funcValue))

/-- The non-const `operator()(S, elem)`: casts `this` to const and delegates
to the const overload. -/
def SubmodularFunction.marginalGainNonconst {α ε : Type} [Sub α]
    (F : SubmodularFunction α ε) (S : MatrixX α) (elem : List α) :
    Except (SubmError ε) α :=
  F.marginalGain S elem

/-- The non-const `operator()(S_multi)`: casts `this` to const and delegates
to the const overload. -/
def SubmodularFunction.evaluateBatchNonconst {α ε : Type}
    (F : SubmodularFunction α ε) (S_multi : List (MatrixX α)) :
    Except (SubmError ε) (List α) :=
  F.evaluateBatch S_multi

/-- The non-const `operator()(S_multi, elem)`: casts `this` to const and
delegates to the const overload. -/
def SubmodularFunction.marginalGainBatchMultiNonconst {α ε : Type} [Sub α]
    (F : SubmodularFunction α ε) (S_multi : List (MatrixX α)) (elem : List α) :
    Except (SubmError ε) (List α) :=
  F.marginalGainBatchMulti S_multi elem

/-- The non-const `operator()(S, elems)`: casts `this` to const and delegates
to the const overload. -/
def SubmodularFunction.marginalGainBatchElemsNonconst {α ε : Type} [Sub α]
    (F : SubmodularFunction α ε) (S : MatrixX α) (elems : List (List α)) :
    Except (SubmError ε) (List α) :=
  F.marginalGainBatchElems S elems

/-- Instrumented single-set evaluation over a pure primitive `f`: the value,
and the evaluated set appended to the call log. -/
def tracedEval {α : Type} (f : MatrixX α → α) (S : MatrixX α)
    (log : List (MatrixX α)) : α × List (MatrixX α) :=
  (f S, log ++ [S])

/-- Instrumented batch evaluation: the batch loop over the instrumented
primitive, threading the call log. -/
def tracedBatch {α : Type} (f : MatrixX α → α) :
    List (MatrixX α) → List (MatrixX α) → List α × List (MatrixX α)
  | [], log => ([], log)
  | S :: rest, log =>
    let p := tracedEval f S log
    let q := tracedBatch f rest p.2
    (p.1 :: q.1, q.2)

/-- Instrumented `operator()(S, elems) const`, with the same call structure
as `SubmodularFunction.marginalGainBatchElems`: build the augmented copies,
one primitive call on `S`, one batch call on the augmented copies, then the
index-wise subtractions against the single stored value of `S`. -/
def tracedMarginalGainBatchElems {α : Type} [Sub α] (f : MatrixX α → α)
    (S : MatrixX α) (elems : List (List α)) (log : List (MatrixX α)) :
    List α × List (MatrixX α) :=
  let S_elems := elems.map (fun e => S.appendRow e)
  let p := tracedEval f S log
  let q := tracedBatch f S_elems p.2
  (q.1.map (fun v => v - p.1), q.2)

/-- Lift a total (never-failing) evaluation primitive into the model. -/
def ofPure {α : Type} (f : MatrixX α → α) : SubmodularFunction α Empty :=
  ⟨fun S => .ok (f S), 1⟩

/-- The spec's deterministic reference function: sum of all entries. -/
def sumFn : SubmodularFunction Int Unit :=
  ⟨fun M => Except.ok ((M.rows.map (fun r => r.sum)).sum), 1⟩

/-- An always-failing evaluation primitive, for exercising propagation. -/
def constFail : SubmodularFunction Int Nat :=
  ⟨fun _ => Except.error 5, 1⟩

/-- A primitive failing exactly on the empty set of rows, for exercising
propagation of a failure of the second evaluation. -/
def failEmpty : SubmodularFunction Int Nat :=
  ⟨fun M => if M.rows.isEmpty then Except.error 9 else Except.ok 1, 1⟩

/-- A primitive succeeding on sets of at most one row and failing on larger
sets, for exercising propagation of a failure of the augmented batch while
the original inputs all evaluate fine. -/
def failTwoRows : SubmodularFunction Int Nat :=
  ⟨fun M => if M.rows.length ≤ 1 then Except.ok 0 else Except.error 3, 1⟩

end Exemcl

namespace Exemcl

theorem exceptMap_ok_length {β γ ε : Type} (f : β → Except ε γ) (l : List β) :
    ∀ us, exceptMap f l = Except.ok us → us.length = l.length := by
  induction l with
  | nil =>
    intro us h
    simp only [exceptMap] at h
    injection h with h
    simp [← h]
  | cons x xs ih =>
    intro us h
    cases hx : f x with
    | error e => simp only [exceptMap, hx] at h; cases h
    | ok y =>
      cases hm : exceptMap f xs with
      | error e => simp only [exceptMap, hx, hm] at h; cases h
      | ok ys =>
        simp only [exceptMap, hx, hm] at h
        injection h with h
        simp [← h, ih ys hm]

theorem exceptMap_ok_get {β γ ε : Type} (f : β → Except ε γ) (l : List β) :
    ∀ us, exceptMap f l = Except.ok us →
      ∀ i (hi : i < l.length) (hi' : i < us.length),
        f l[i] = Except.ok us[i] := by
  induction l with
  | nil =>
    intro us h i hi
    exact absurd hi (by simp)
  | cons x xs ih =>
    intro us h i hi hi'
    cases hx : f x with
    | error e => simp only [exceptMap, hx] at h; cases h
    | ok y =>
      cases hm : exceptMap f xs with
      | error e => simp only [exceptMap, hx, hm] at h; cases h
      | ok ys =>
        simp only [exceptMap, hx, hm] at h
        injection h with h
        subst h
        cases i with
        | zero => simpa using hx
        | succ j => exact ih ys hm j (by simpa using hi) (by simpa using hi')

theorem exceptMap_pure {β γ ε : Type} (g : β → γ) (l : List β) :
    exceptMap (fun x => (Except.ok (g x) : Except ε γ)) l = Except.ok (l.map g) := by
  induction l with
  | nil => rfl
  | cons x xs ih => simp [exceptMap, ih]

theorem exceptMap_first_error {β γ ε : Type} (f : β → Except ε γ) (pre : List β)
    (bad : β) (post : List β) (e : ε)
    (hpre : ∀ x ∈ pre, ∃ y, f x = Except.ok y) (hbad : f bad = Except.error e) :
    exceptMap f (pre ++ bad :: post) = Except.error e := by
  induction pre with
  | nil => simp [exceptMap, hbad]
  | cons x xs ih =>
    obtain ⟨y, hy⟩ := hpre x (by simp)
    have hxs := ih (fun z hz => hpre z (by simp [hz]))
    simp [exceptMap, hy, hxs]

theorem evaluateBatch_ok_iff {α ε : Type} (F : SubmodularFunction α ε)
    (S_multi : List (MatrixX α)) (us : List α) :
    F.evaluateBatch S_multi = Except.ok us ↔ exceptMap F.evaluate S_multi = Except.ok us := by
  unfold SubmodularFunction.evaluateBatch
  cases exceptMap F.evaluate S_multi <;> simp [Except.mapError]

theorem appendRow_ne {α : Type} (S : MatrixX α) (e : List α) : S.appendRow e ≠ S := by
  intro hEq
  have hr := congrArg (fun M => M.rows.length) hEq
  simp [MatrixX.appendRow] at hr

theorem tracedBatch_eq {α : Type} (f : MatrixX α → α) (l : List (MatrixX α)) :
    ∀ log, tracedBatch f l log = (l.map f, log ++ l) := by
  induction l with
  | nil => intro log; simp [tracedBatch]
  | cons S rest ih => intro log; simp [tracedBatch, tracedEval, ih]

end Exemcl

namespace Exemcl

/-- C1: when `elem`'s dimension matches `S`'s column count, the single-element
marginal gain `operator()(S, elem)` returns `f(S')` minus `f(S)`, where `S'`
is a fresh copy of `S` with `elem` appended as a new last row (`S` itself is
untouched: the augmented matrix is built from a copy). -/
theorem marginalGain_eq_sub {α ε : Type} [Sub α] (F : SubmodularFunction α ε)
    (S : MatrixX α) (elem : List α) (h : S.cols = elem.length) (a b : α)
    (hS : F.evaluate S = Except.ok a)
    (hAug : F.evaluate (S.appendRow elem) = Except.ok b) :
    F.marginalGain S elem = Except.ok (b - a) := by
  unfold SubmodularFunction.marginalGain
  rw [if_pos h, hAug, hS]

/-- C1 witness: the spec's concrete scenario, `S = {[1,0],[0,1]}`,
`e = [1,1]`, `f` the sum of all entries; the marginal gain is `4 - 2 = 2`. -/
theorem marginalGain_eq_sub_witness :
    sumFn.marginalGain ⟨2, [[1, 0], [0, 1]]⟩ [1, 1] = Except.ok 2 := by
  have h := marginalGain_eq_sub sumFn ⟨2, [[1, 0], [0, 1]]⟩ [1, 1] rfl 2 4 rfl rfl
  simpa using h

/-- C2: batch evaluation `operator()(S_multi)` returns one utility per input
set, the output index order exactly matching the input order
(`result[i] = f(S_multi[i])`), and the result depends only on the evaluation
primitive — any instance with the same primitive and any stored worker count
returns the same sequence. -/
theorem evaluateBatch_ordered {α ε : Type} (F : SubmodularFunction α ε)
    (S_multi : List (MatrixX α)) (us : List α)
    (h : F.evaluateBatch S_multi = Except.ok us) :
    us.length = S_multi.length ∧
    (∀ i (hi : i < S_multi.length) (hi' : i < us.length),
      F.evaluate S_multi[i] = Except.ok us[i]) ∧
    (∀ G : SubmodularFunction α ε, G.evaluate = F.evaluate →
      G.evaluateBatch S_multi = Except.ok us) := by
  rw [evaluateBatch_ok_iff] at h
  refine ⟨exceptMap_ok_length F.evaluate S_multi us h,
    exceptMap_ok_get F.evaluate S_multi us h, ?_⟩
  intro G hG
  rw [evaluateBatch_ok_iff, hG]
  exact h

/-- C2 witness: a two-set batch under the entry-sum function, read back at
index 1, and re-run on an instance storing worker count 99. -/
theorem evaluateBatch_ordered_witness :
    sumFn.evaluate ⟨2, [[1, 1], [2, 3]]⟩ = Except.ok 7 ∧
    (SubmodularFunction.mk sumFn.evaluate 99).evaluateBatch
      [⟨2, [[1, 0], [0, 1]]⟩, ⟨2, [[1, 1], [2, 3]]⟩] = Except.ok [2, 7] := by
  have h := evaluateBatch_ordered sumFn
    [⟨2, [[1, 0], [0, 1]]⟩, ⟨2, [[1, 1], [2, 3]]⟩] [2, 7] rfl
  exact ⟨h.2.1 1 (by decide) (by decide), h.2.2 ⟨sumFn.evaluate, 99⟩ rfl⟩

/-- C4: `operator()(S, elem)` fails with the dimension-mismatch error exactly
when `elem.size()` differs from `S.cols()`, and the error carries the two
observed sizes in that order; with matching sizes no dimension-mismatch error
can come out of the call. -/
theorem marginalGain_dimension_check {α ε : Type} [Sub α] (F : SubmodularFunction α ε)
    (S : MatrixX α) (elem : List α) :
    (S.cols ≠ elem.length →
      F.marginalGain S elem
        = Except.error (SubmError.dimensionMismatch S.cols elem.length)) ∧
    (∀ c k, F.marginalGain S elem = Except.error (SubmError.dimensionMismatch c k) →
      S.cols ≠ elem.length ∧ c = S.cols ∧ k = elem.length) := by
  constructor
  · intro hne
    unfold SubmodularFunction.marginalGain
    rw [if_neg hne]
  · intro c k hmg
    unfold SubmodularFunction.marginalGain at hmg
    by_cases hc : S.cols = elem.length
    · rw [if_pos hc] at hmg
      cases hAug : F.evaluate (S.appendRow elem) with
      | error e => rw [hAug] at hmg; simp at hmg
      | ok b =>
        rw [hAug] at hmg
        cases hS : F.evaluate S with
        | error e => rw [hS] at hmg; simp at hmg
        | ok a => rw [hS] at hmg; simp at hmg
    · rw [if_neg hc] at hmg
      simp only [Except.error.injEq, SubmError.dimensionMismatch.injEq] at hmg
      exact ⟨hc, hmg.1.symm, hmg.2.symm⟩

/-- C4 witness: the spec's example, width 3 vs width 2, reported as (3, 2);
conversely a reported mismatch at this input implies the widths differ. -/
theorem marginalGain_dimension_check_witness :
    sumFn.marginalGain ⟨3, []⟩ [1, 2]
      = Except.error (SubmError.dimensionMismatch 3 2) ∧
    (MatrixX.cols ⟨3, ([] : List (List Int))⟩ ≠ List.length [(1 : Int), 2]) := by
  have h := marginalGain_dimension_check sumFn ⟨3, []⟩ [1, 2]
  exact ⟨h.1 (by decide), (h.2 3 2 (h.1 (by decide))).1⟩

/-- C7: `setWorkerCount(n)` stores `n` exactly when `n ≥ 1` and otherwise the
detected hardware concurrency `hw`, falling back to 1 when detection reports
0; construction resolves its (possibly defaulted) worker-count argument by
the same rule. -/
theorem workerCount_resolution {α ε : Type} (F : SubmodularFunction α ε)
    (f : MatrixX α → Except ε α) (hw : Nat) (n : Int) :
    (((F.setWorkerCount hw n).getWorkerCount : Int)
        = if 1 ≤ n then n else if 0 < hw then (hw : Int) else 1) ∧
    (SubmodularFunction.construct f hw n).getWorkerCount
        = (F.setWorkerCount hw n).getWorkerCount ∧
    (SubmodularFunction.constructDefault f hw).getWorkerCount
        = (if 0 < hw then hw else 1) := by
  unfold SubmodularFunction.constructDefault SubmodularFunction.construct
    SubmodularFunction.setWorkerCount SubmodularFunction.getWorkerCount
  refine ⟨?_, ?_, ?_⟩
  · by_cases hn : 1 ≤ n
    · simp only [hn, if_true]
      omega
    · simp only [hn, if_false]
      by_cases hhw : 0 < hw <;> simp [hhw]
  · by_cases hn : 1 ≤ n <;> simp [hn]
  · norm_num

/-- C9: the stored worker count is at least 1 after any `setWorkerCount` call
and after construction with any argument (explicit or defaulted). -/
theorem workerCount_ge_one {α ε : Type} (F : SubmodularFunction α ε)
    (f : MatrixX α → Except ε α) (hw : Nat) (n : Int) :
    1 ≤ (F.setWorkerCount hw n).getWorkerCount ∧
    1 ≤ (SubmodularFunction.construct f hw n).getWorkerCount ∧
    1 ≤ (SubmodularFunction.constructDefault f hw).getWorkerCount := by
  unfold SubmodularFunction.constructDefault SubmodularFunction.construct
    SubmodularFunction.setWorkerCount SubmodularFunction.getWorkerCount
  refine ⟨?_, ?_, ?_⟩ <;>
    · by_cases hn : 1 ≤ n <;> by_cases hhw : 0 < hw <;> simp [hn, hhw] <;> omega

/-- C10: each non-const overload (`marginalGain`, `evaluateBatch`, and both
batch marginal-gain variants) returns exactly the result of the const
overload on the same arguments, by delegation. -/
theorem nonconst_delegates {α ε : Type} [Sub α] (F : SubmodularFunction α ε) :
    (∀ (S : MatrixX α) (elem : List α),
      F.marginalGainNonconst S elem = F.marginalGain S elem) ∧
    (∀ S_multi : List (MatrixX α),
      F.evaluateBatchNonconst S_multi = F.evaluateBatch S_multi) ∧
    (∀ (S_multi : List (MatrixX α)) (elem : List α),
      F.marginalGainBatchMultiNonconst S_multi elem
        = F.marginalGainBatchMulti S_multi elem) ∧
    (∀ (S : MatrixX α) (elems : List (List α)),
      F.marginalGainBatchElemsNonconst S elems = F.marginalGainBatchElems S elems) :=
  ⟨fun _ _ => rfl, fun _ => rfl, fun _ _ => rfl, fun _ _ => rfl⟩

end Exemcl

namespace Exemcl

/-- C3: for `M` candidate elements of `S`'s dimension, `operator()(S, elems)`
returns `M` gains with `result[j] = f(S with elems[j] appended) - f(S)`;
equivalently `result[j]` is exactly `marginalGain(S, elems[j])`. -/
theorem marginalGainBatchElems_correct {α ε : Type} [Sub α] (F : SubmodularFunction α ε)
    (S : MatrixX α) (elems : List (List α))
    (hdim : ∀ e ∈ elems, S.cols = e.length) (gains : List α)
    (h : F.marginalGainBatchElems S elems = Except.ok gains) :
    gains.length = elems.length ∧
    ∀ j (hj : j < elems.length) (hj' : j < gains.length),
      (∃ a b, F.evaluate S = Except.ok a ∧
        F.evaluate (S.appendRow elems[j]) = Except.ok b ∧
        gains[j] = b - a) ∧
      F.marginalGain S elems[j] = Except.ok gains[j] := by
  unfold SubmodularFunction.marginalGainBatchElems at h
  simp only [] at h
  cases hS : F.evaluate S with
  | error e => rw [hS] at h; cases h
  | ok a =>
    rw [hS] at h
    cases hB : F.evaluateBatch (elems.map (fun e => S.appendRow e)) with
    | error err => rw [hB] at h; cases h
    | ok bs =>
      rw [hB] at h
      injection h with h
      subst h
      have hbs := (evaluateBatch_ok_iff F _ bs).mp hB
      have hlen : bs.length = elems.length := by
        have := exceptMap_ok_length F.evaluate _ bs hbs
        simpa using this
      refine ⟨by simp [hlen], ?_⟩
      intro j hj hj'
      have hjb : j < bs.length := by simpa using hj'
      have hjm : j < (elems.map (fun e => S.appendRow e)).length := by simpa using hj
      have hev := exceptMap_ok_get F.evaluate _ bs hbs j hjm hjb
      rw [List.getElem_map] at hev
      have hg : (bs.map (fun v => v - a))[j] = bs[j] - a := by
        rw [List.getElem_map]
      refine ⟨⟨a, bs[j], rfl, hev, hg⟩, ?_⟩
      rw [hg]
      unfold SubmodularFunction.marginalGain
      rw [if_pos (hdim elems[j] (List.getElem_mem hj)), hev, hS]

/-- C3 witness: `S = {[1,0],[0,1]}` with candidates `[1,1]` and `[2,5]` under
the entry-sum function; the gain at index 1 is `marginalGain(S, [2,5]) = 7`. -/
theorem marginalGainBatchElems_correct_witness :
    sumFn.marginalGain ⟨2, [[1, 0], [0, 1]]⟩ [2, 5] = Except.ok 7 := by
  have h := marginalGainBatchElems_correct sumFn ⟨2, [[1, 0], [0, 1]]⟩
    [[1, 1], [2, 5]] (by decide) [2, 7] rfl
  exact (h.2 1 (by decide) (by decide)).2

/-- C5: for a multi-collection whose members all have `elem`'s dimension,
`operator()(S_multi, elem)` returns one gain per member with
`result[i] = f(S_i with elem appended) - f(S_i)`; equivalently `result[i]`
is exactly `marginalGain(S_i, elem)`. -/
theorem marginalGainBatchMulti_correct {α ε : Type} [Sub α] (F : SubmodularFunction α ε)
    (S_multi : List (MatrixX α)) (elem : List α)
    (hdim : ∀ S ∈ S_multi, S.cols = elem.length) (gains : List α)
    (h : F.marginalGainBatchMulti S_multi elem = Except.ok gains) :
    gains.length = S_multi.length ∧
    ∀ i (hi : i < S_multi.length) (hi' : i < gains.length),
      (∃ a b, F.evaluate S_multi[i] = Except.ok a ∧
        F.evaluate (S_multi[i].appendRow elem) = Except.ok b ∧
        gains[i] = b - a) ∧
      F.marginalGain S_multi[i] elem = Except.ok gains[i] := by
  unfold SubmodularFunction.marginalGainBatchMulti at h
  simp only [] at h
  cases hU : F.evaluateBatch S_multi with
  | error err => rw [hU] at h; cases h
  | ok u =>
    rw [hU] at h
    cases hE : F.evaluateBatch (S_multi.map (fun S => S.appendRow elem)) with
    | error err => rw [hE] at h; cases h
    | ok uE =>
      rw [hE] at h
      injection h with h
      subst h
      have hu := (evaluateBatch_ok_iff F _ u).mp hU
      have huE := (evaluateBatch_ok_iff F _ uE).mp hE
      have hul : u.length = S_multi.length := exceptMap_ok_length F.evaluate _ u hu
      have huEl : uE.length = S_multi.length := by
        have := exceptMap_ok_length F.evaluate _ uE huE
        simpa using this
      refine ⟨by simp [hul, huEl], ?_⟩
      intro i hi hi'
      have hiu : i < u.length := by omega
      have hiuE : i < uE.length := by omega
      have him : i < (S_multi.map (fun S => S.appendRow elem)).length := by simpa using hi
      have h1 := exceptMap_ok_get F.evaluate _ u hu i hi hiu
      have h2 := exceptMap_ok_get F.evaluate _ uE huE i him hiuE
      rw [List.getElem_map] at h2
      have hg : (List.zipWith (fun a b => a - b) uE u)[i] = uE[i] - u[i] := by
        rw [List.getElem_zipWith]
      refine ⟨⟨u[i], uE[i], h1, h2, hg⟩, ?_⟩
      rw [hg]
      unfold SubmodularFunction.marginalGain
      rw [if_pos (hdim S_multi[i] (List.getElem_mem hi)), h2, h1]

/-- C5 witness: two sets under the entry-sum function with `e = [1,1]`; the
gain at index 1 equals `marginalGain({[5,1],[2,2]}, [1,1]) = 12 - 10 = 2`. -/
theorem marginalGainBatchMulti_correct_witness :
    sumFn.marginalGain ⟨2, [[5, 1], [2, 2]]⟩ [1, 1] = Except.ok 2 := by
  have h := marginalGainBatchMulti_correct sumFn
    [⟨2, [[1, 0], [0, 1]]⟩, ⟨2, [[5, 1], [2, 2]]⟩] [1, 1] (by decide) [2, 2] rfl
  exact (h.2 1 (by decide) (by decide)).2

end Exemcl

namespace Exemcl

/-- C6: on the instrumented copy of `operator()(S, elems)` (same call
structure, with the primitive logging every set it is handed), the call log
is exactly `S` followed by the `M` augmented sets: the primitive runs on `S`
exactly once, the `M` augmented evaluations form the one batch that follows,
`1 + M` primitive calls happen in total, every gain is the corresponding
augmented value minus the single stored value of `S`, and the gains agree
with the uninstrumented `marginalGainBatchElems`. -/
theorem batchElems_evaluates_S_once {α : Type} [Sub α] [DecidableEq α]
    (f : MatrixX α → α) (S : MatrixX α) (elems : List (List α)) :
    (tracedMarginalGainBatchElems f S elems []).2
        = S :: elems.map (fun e => S.appendRow e) ∧
    ((tracedMarginalGainBatchElems f S elems []).2).count S = 1 ∧
    (tracedMarginalGainBatchElems f S elems []).2.length = elems.length + 1 ∧
    (tracedMarginalGainBatchElems f S elems []).1
        = elems.map (fun e => f (S.appendRow e) - f S) ∧
    Except.ok (tracedMarginalGainBatchElems f S elems []).1
        = (ofPure f).marginalGainBatchElems S elems := by
  have htr : tracedMarginalGainBatchElems f S elems []
      = ((elems.map (fun e => S.appendRow e)).map (fun M => f M - f S),
         S :: elems.map (fun e => S.appendRow e)) := by
    simp [tracedMarginalGainBatchElems, tracedEval, tracedBatch_eq, List.map_map]
  have hnotmem : S ∉ elems.map (fun e => S.appendRow e) := by
    intro hmem
    obtain ⟨e, _, he⟩ := List.mem_map.mp hmem
    exact appendRow_ne S e he
  have hbatch : (ofPure f).evaluateBatch (elems.map (fun e => S.appendRow e))
      = Except.ok ((elems.map (fun e => S.appendRow e)).map f) := by
    rw [evaluateBatch_ok_iff]
    exact exceptMap_pure f _
  refine ⟨by rw [htr], ?_, by rw [htr]; simp, by rw [htr]; simp [List.map_map], ?_⟩
  · rw [htr]
    simp [List.count_cons_self, List.count_eq_zero_of_not_mem hnotmem]
  · rw [htr]
    unfold SubmodularFunction.marginalGainBatchElems
    simp only []
    have hev : (ofPure f).evaluate S = Except.ok (f S) := rfl
    rw [hev, hbatch]
    simp [List.map_map]

/-- C8: the wrappers catch nothing: a subclass evaluation failure surfaces
from `operator()(S, elem)` whichever of the two evaluations fails; the first
failure inside a batch aborts the whole `operator()(S_multi)` call with that
very error and no partial result; and both batch marginal-gain variants
surface a failure of either of their two internal evaluation rounds — the
original inputs or the augmented copies — unchanged. -/
theorem error_propagation {α ε : Type} [Sub α] (F : SubmodularFunction α ε) :
    (∀ (S : MatrixX α) (elem : List α) (e : ε), S.cols = elem.length →
      F.evaluate (S.appendRow elem) = Except.error e →
      F.marginalGain S elem = Except.error (SubmError.evalError e)) ∧
    (∀ (S : MatrixX α) (elem : List α) (e : ε) (b : α), S.cols = elem.length →
      F.evaluate (S.appendRow elem) = Except.ok b → F.evaluate S = Except.error e →
      F.marginalGain S elem = Except.error (SubmError.evalError e)) ∧
    (∀ (pre : List (MatrixX α)) (bad : MatrixX α) (post : List (MatrixX α)) (e : ε),
      (∀ u ∈ pre, ∃ v, F.evaluate u = Except.ok v) → F.evaluate bad = Except.error e →
      F.evaluateBatch (pre ++ bad :: post) = Except.error (SubmError.evalError e)) ∧
    (∀ (S_multi : List (MatrixX α)) (elem : List α) (err : SubmError ε),
      F.evaluateBatch S_multi = Except.error err →
      F.marginalGainBatchMulti S_multi elem = Except.error err) ∧
    (∀ (S_multi : List (MatrixX α)) (elem : List α) (u : List α) (err : SubmError ε),
      F.evaluateBatch S_multi = Except.ok u →
      F.evaluateBatch (S_multi.map (fun S => S.appendRow elem)) = Except.error err →
      F.marginalGainBatchMulti S_multi elem = Except.error err) ∧
    (∀ (S : MatrixX α) (elems : List (List α)) (e : ε),
      F.evaluate S = Except.error e →
      F.marginalGainBatchElems S elems = Except.error (SubmError.evalError e)) ∧
    (∀ (S : MatrixX α) (elems : List (List α)) (a : α) (err : SubmError ε),
      F.evaluate S = Except.ok a →
      F.evaluateBatch (elems.map (fun e => S.appendRow e)) = Except.error err →
      F.marginalGainBatchElems S elems = Except.error err) := by
  refine ⟨?_, ?_, ?_, ?_, ?_, ?_, ?_⟩
  · intro S elem e hdim hAug
    unfold SubmodularFunction.marginalGain
    rw [if_pos hdim, hAug]
  · intro S elem e b hdim hAug hS
    unfold SubmodularFunction.marginalGain
    rw [if_pos hdim, hAug, hS]
  · intro pre bad post e hpre hbad
    unfold SubmodularFunction.evaluateBatch
    rw [exceptMap_first_error F.evaluate pre bad post e hpre hbad]
    rfl
  · intro S_multi elem err hU
    unfold SubmodularFunction.marginalGainBatchMulti
    simp only []
    rw [hU]
  · intro S_multi elem u err hU hE
    unfold SubmodularFunction.marginalGainBatchMulti
    simp only []
    rw [hU, hE]
  · intro S elems e hS
    unfold SubmodularFunction.marginalGainBatchElems
    simp only []
    rw [hS]
  · intro S elems a err hS hE
    unfold SubmodularFunction.marginalGainBatchElems
    simp only []
    rw [hS, hE]

/-- C8 witness: an always-failing primitive, one failing only on the empty
set, and one succeeding on every original one-row set but failing on every
two-row augmented copy, pushed through all four wrappers; every call
surfaces the subclass's own error value, whichever internal evaluation round
fails. -/
theorem error_propagation_witness :
    constFail.marginalGain ⟨1, []⟩ [3] = Except.error (SubmError.evalError 5) ∧
    failEmpty.marginalGain ⟨1, []⟩ [3] = Except.error (SubmError.evalError 9) ∧
    constFail.evaluateBatch [⟨1, []⟩] = Except.error (SubmError.evalError 5) ∧
    constFail.marginalGainBatchMulti [⟨1, []⟩] [3]
      = Except.error (SubmError.evalError 5) ∧
    failTwoRows.marginalGainBatchMulti [⟨1, [[4]]⟩] [7]
      = Except.error (SubmError.evalError 3) ∧
    constFail.marginalGainBatchElems ⟨1, []⟩ [[3]]
      = Except.error (SubmError.evalError 5) ∧
    failTwoRows.marginalGainBatchElems ⟨1, [[4]]⟩ [[7]]
      = Except.error (SubmError.evalError 3) := by
  have h1 := error_propagation constFail
  have h2 := error_propagation failEmpty
  have h3 := error_propagation failTwoRows
  have hbatch : constFail.evaluateBatch [⟨1, []⟩]
      = Except.error (SubmError.evalError 5) :=
    h1.2.2.1 [] ⟨1, []⟩ [] 5 (by simp) rfl
  exact ⟨h1.1 ⟨1, []⟩ [3] 5 rfl rfl,
    h2.2.1 ⟨1, []⟩ [3] 9 1 rfl rfl rfl,
    hbatch,
    h1.2.2.2.1 [⟨1, []⟩] [3] (SubmError.evalError 5) hbatch,
    h3.2.2.2.2.1 [⟨1, [[4]]⟩] [7] [0] (SubmError.evalError 3) rfl rfl,
    h1.2.2.2.2.2.1 ⟨1, []⟩ [[3]] 5 rfl,
    h3.2.2.2.2.2.2 ⟨1, [[4]]⟩ [[7]] 0 (SubmError.evalError 3) rfl rfl⟩

end Exemcl
